import Mathlib

/-!
# go-automater: the process scan / filter / terminate / unmount core

A shallow embedding of `process_handler.go`.  Go strings are modelled as
sequences of Unicode code points (`String`), Go `int` as `Int` with the 64-bit
range enforced where the source can observe it (`strconv.Atoi`).  The operating
system is a record of answers (`World`): what `whoami`, `lsof` and `ps` print,
whether `kill` and `diskutil` succeed, and the order in which the Go runtime
iterates the pid map.  Commands that change the system (`kill`, `diskutil`) are
logged as a list of `Event`s next to the `Result`.
-/

namespace GoAutomater

/-! ## The pieces of the Go standard library the handler calls -/

/-- The predicate `unicode.IsSpace`: the code points with the White_Space property. -/
def isSpace (c : Char) : Bool :=
  let n := c.toNat
  (9 ≤ n && n ≤ 13) || n == 0x20 || n == 0x85 || n == 0xA0 || n == 0x1680 ||
    (0x2000 ≤ n && n ≤ 0x200A) || n == 0x2028 || n == 0x2029 || n == 0x202F ||
    n == 0x205F || n == 0x3000

/-- Worker of `strings.Fields`: `cur` is the field being read, reversed. -/
def fieldsGo : List Char → List Char → List (List Char)
  | cur, [] => if cur.isEmpty then [] else [cur.reverse]
  | cur, c :: cs =>
    if isSpace c then
      (if cur.isEmpty then fieldsGo [] cs else cur.reverse :: fieldsGo [] cs)
    else fieldsGo (c :: cur) cs

/-- The function `strings.Fields`: the maximal runs of non-space code points. -/
def Fields (s : String) : List String :=
  (fieldsGo [] s.data).map String.mk

/-- Worker of `strings.Split(s, "\n")` on code points. -/
def splitNewline : List Char → List (List Char)
  | [] => [[]]
  | c :: cs =>
    if c = '\n' then [] :: splitNewline cs
    else
      match splitNewline cs with
      | [] => [[c]]
      | l :: ls => (c :: l) :: ls

/-- The call `strings.Split(s, "\n")`. -/
def SplitLines (s : String) : List String :=
  (splitNewline s.data).map String.mk

/-- The function `strings.HasPrefix`. -/
def startsWith (s pre : String) : Bool :=
  pre.data.isPrefixOf s.data

/-- The function `strings.TrimSpace`. -/
def TrimSpace (s : String) : String :=
  String.mk ((s.data.dropWhile isSpace).reverse.dropWhile isSpace).reverse

/-- Value of a decimal digit, `none` for any other code point. -/
def digitVal (c : Char) : Option Nat :=
  if 48 ≤ c.toNat ∧ c.toNat ≤ 57 then some (c.toNat - 48) else none

/-- Reads a run of decimal digits left to right, `acc` holding the value so far. -/
def parseDigits : Nat → List Char → Option Nat
  | acc, [] => some acc
  | acc, c :: cs =>
    match digitVal c with
    | none => none
    | some d => parseDigits (acc * 10 + d) cs

/-- The function `strconv.Atoi` for a 64-bit `int`: an optional sign, at least one
decimal digit, nothing else, and a value that fits; `none` is the error return. -/
def Atoi (s : String) : Option Int :=
  match s.data with
  | [] => none
  | c :: cs =>
    let neg := decide (c = '-')
    let ds := if c = '-' ∨ c = '+' then cs else c :: cs
    match ds with
    | [] => none
    | d :: ds' =>
      match parseDigits 0 (d :: ds') with
      | none => none
      | some n =>
        if neg then (if n ≤ 2 ^ 63 then some (-(n : Int)) else none)
        else (if n < 2 ^ 63 then some (n : Int) else none)

/-- The case-folding orbit of an ASCII pattern rune, the set `unicode.SimpleFold`
cycles through: both cases of a letter, plus the Kelvin sign for `k` and the long s
for `s`. -/
def foldOrbit (p : Char) : List Char :=
  if p = 'k' ∨ p = 'K' then ['k', 'K', Char.ofNat 0x212A]
  else if p = 's' ∨ p = 'S' then ['s', 'S', Char.ofNat 0x017F]
  else [p.toLower, p.toUpper]

/-- A compiled pattern of the shape used here: an alternation of literals, with
or without the `(?i)` flag, not anchored. -/
structure Regexp where
  foldCase : Bool
  alternatives : List String

/-- One pattern rune against one input rune. -/
def runeMatches (fold : Bool) (p c : Char) : Bool :=
  if fold then (foldOrbit p).elem c else c == p

/-- The literal `pat` matches at the head of the input. -/
def literalAt (fold : Bool) : List Char → List Char → Bool
  | [], _ => true
  | _ :: _, [] => false
  | p :: ps, c :: cs => runeMatches fold p c && literalAt fold ps cs

/-- Some alternative matches at the head of the input. -/
def matchAt (re : Regexp) (s : List Char) : Bool :=
  re.alternatives.any (fun a => literalAt re.foldCase a.data s)

/-- Some alternative matches at some position of the input. -/
def matchFrom (re : Regexp) : List Char → Bool
  | [] => matchAt re []
  | c :: cs => matchAt re (c :: cs) || matchFrom re cs

/-- The method `(*Regexp).MatchString`: an unanchored search. -/
def Regexp.MatchString (re : Regexp) (s : String) : Bool :=
  matchFrom re s.data

/-! ## process_handler.go -/

/-- The constant `targetVolume`. -/
def targetVolume : String := "/Volumes/ExternalSSD"

/-- The variable `whitelist`, compiled from
`(?i)(node|npm|pnpm|yarn|code|Code|IntelliJ|idea|java)`. -/
def whitelist : Regexp :=
  { foldCase := true
    alternatives := ["node", "npm", "pnpm", "yarn", "code", "Code", "IntelliJ", "idea", "java"] }

/-- The struct `Process`. -/
structure Process where
  PID : Int
  Command : String
  User : String
  Action : String
  deriving DecidableEq, Repr

/-- The struct `Result`. -/
structure Result where
  DryRun : Bool
  Processes : List Process
  UnmountAttempted : Bool
  UnmountSuccess : Bool
  ForceEjectUsed : Bool
  Message : String
  deriving DecidableEq, Repr

/-- A command that acts on the system: `kill -TERM pid` (with whether it
succeeded) or `diskutil unmount [force] targetVolume`. -/
inductive Event where
  | kill (pid : Int) (ok : Bool)
  | unmount (force : Bool)
  deriving DecidableEq, Repr

/-- What the operating system answers during one request: the output of `whoami`,
of `lsof` and of `ps -p pid -o comm=,user=` (`none` when the command returned an
error), whether `kill -TERM pid` and `diskutil unmount [force]` succeed, and
`mapOrder`, from which the iteration order of the pid map is taken. -/
structure World where
  whoami : Option String
  lsof : Option String
  mapOrder : List Nat
  ps : Int → Option String
  kill : Int → Bool
  diskutil : Bool → Bool

/-- The function `currentUser`: the trimmed output of `whoami`, `""` on error. -/
def currentUser (w : World) : String :=
  match w.whoami with
  | none => ""
  | some out => TrimSpace out

/-- The body of `processInfo` after the `ps` call: two empty strings on error or
when the output has fewer than two fields, else the first two fields. -/
def parseProcessInfo (out : Option String) : String × String :=
  match out with
  | none => ("", "")
  | some o =>
    match Fields o with
    | command :: user :: _ => (command, user)
    | _ => ("", "")

/-- The function `processInfo`. -/
def processInfo (w : World) (pid : Int) : String × String :=
  parseProcessInfo (w.ps pid)

/-- The statement `pidSet[pid] = struct{}{}` on a map kept as its list of keys. -/
def mapInsert (pidSet : List Int) (pid : Int) : List Int :=
  if pid ∈ pidSet then pidSet else pidSet ++ [pid]

/-- A `for ... range` over a map: the keys in an order the runtime chooses, each
key put at a position taken from `order`. -/
def mapRange : List Nat → List Int → List Int
  | _, [] => []
  | [], k :: ks => k :: mapRange [] ks
  | n :: ns, k :: ks =>
    let rest := mapRange ns ks
    rest.insertIdx (n % (rest.length + 1)) k

/-- One turn of the line loop of `findPIDsUsingVolume`. -/
def scanLine (pidSet : List Int) (line : String) : List Int :=
  let fields := Fields line
  if fields.length < 9 then pidSet
  else if startsWith (fields.getD 8 "") targetVolume then
    match Atoi (fields.getD 1 "") with
    | some pid => mapInsert pidSet pid
    | none => pidSet
  else pidSet

/-- The function `findPIDsUsingVolume`. -/
def findPIDsUsingVolume (w : World) : List Int :=
  match w.lsof with
  | none => []
  | some out => mapRange w.mapOrder ((SplitLines out).foldl scanLine [])

/-- The function `unmountVolume`: whether `diskutil` succeeded, and the call made. -/
def unmountVolume (w : World) (force : Bool) : Bool × List Event :=
  (w.diskutil force, [Event.unmount force])

/-- One turn of the pid loop of `run`, on the pair (records so far, events so far). -/
def loopBody (w : World) (user : String) (dryRun : Bool)
    (st : List Process × List Event) (pid : Int) : List Process × List Event :=
  let info := processInfo w pid
  let cmd := info.1
  let owner := info.2
  if owner ≠ user then st
  else
    let hit := whitelist.MatchString cmd
    let action := if hit then "terminate" else "skip"
    let events := if hit && !dryRun then st.2 ++ [Event.kill pid (w.kill pid)] else st.2
    (st.1 ++ [{ PID := pid, Command := cmd, User := owner, Action := action }], events)

/-- The comparison handed to `sort.Slice`. -/
def lessPID (a b : Process) : Bool :=
  decide (a.PID < b.PID)

/-- The call `sort.Slice(xs, less)`.  The library promises a permutation ordered
by `less` and no stability; it is embedded as an insertion sort, where `a` goes
before `b` unless `less b a`.  Records with equal PID are equal here, so every
ordered permutation is the same list (see `sorted_records_unique`). -/
def sortSlice (less : Process → Process → Bool) (xs : List Process) : List Process :=
  xs.insertionSort (fun a b => less b a = false)

/-- The function `run` after the scan, on a given pid list: the result it
encodes and the commands it issued, in order. -/
def runOn (w : World) (dryRun : Bool) (pids : List Int) : Result × List Event :=
  let user := currentUser w
  let st := pids.foldl (loopBody w user dryRun) ([], [])
  let processes := sortSlice lessPID st.1
  let result : Result :=
    { DryRun := dryRun
      Processes := processes
      UnmountAttempted := !dryRun
      UnmountSuccess := false
      ForceEjectUsed := false
      Message := "" }
  if !dryRun then
    let result := { result with UnmountAttempted := true }
    let normal := unmountVolume w false
    if normal.1 then
      ({ result with UnmountSuccess := true, Message := "Volume unmounted successfully" },
        st.2 ++ normal.2)
    else
      let forced := unmountVolume w true
      if forced.1 then
        ({ result with
            UnmountSuccess := true
            ForceEjectUsed := true
            Message := "Force eject was required but succeeded" },
          st.2 ++ normal.2 ++ forced.2)
      else
        ({ result with Message := "Unmount failed even after force eject" },
          st.2 ++ normal.2 ++ forced.2)
  else
    ({ result with Message := "Dry run only — no unmount attempted" }, st.2)

/-- The function `run`. -/
def run (w : World) (dryRun : Bool) : Result × List Event :=
  runOn w dryRun (findPIDsUsingVolume w)

/-- The pids that were sent a signal, in order. -/
def signalled : List Event → List Int
  | [] => []
  | Event.kill pid _ :: es => pid :: signalled es
  | Event.unmount _ :: es => signalled es

/-- The unmount calls that were made, in order (`true` is the forced eject). -/
def unmountCalls : List Event → List Bool
  | [] => []
  | Event.kill _ _ :: es => unmountCalls es
  | Event.unmount force :: es => force :: unmountCalls es

/-- A world for examples: user `me`; pid 100 is `node` of `me`, pid 200 is `bash`
of `root`, pid 300 is `vim` of `me`, pid 400 has exited. -/
def demoWorld (normalOk forcedOk : Bool) : World :=
  { whoami := some "me\n"
    lsof := some ("COMMAND PID USER FD TYPE DEVICE SIZE/OFF NODE NAME\n" ++
      "vim 300 me 4r REG 1,4 10 77 /Volumes/ExternalSSD/notes.txt\n" ++
      "node 100 me cwd DIR 1,4 96 2 /Volumes/ExternalSSD/app\n" ++
      "bash 200 root cwd DIR 1,4 96 2 /Volumes/ExternalSSD\n" ++
      "node 100 me 12r REG 1,4 10 78 /Volumes/ExternalSSD/app/x.js\n" ++
      "gone 400 me 3r REG 1,4 10 79 /Volumes/ExternalSSD/tmp\n" ++
      "zsh 500 me cwd DIR 1,4 96 2 /Users/me\n")
    mapOrder := [0, 0, 1]
    ps := fun pid =>
      if pid = 100 then some "node me\n"
      else if pid = 200 then some "bash root\n"
      else if pid = 300 then some "vim me\n"
      else none
    kill := fun _ => true
    diskutil := fun force => if force then forcedOk else normalOk }

/-- A world where both `whoami` and the `ps` lookup of pid 400 fail. -/
def lostWorld : World :=
  { whoami := none
    lsof := some "gone 400 me 3r REG 1,4 10 79 /Volumes/ExternalSSD/tmp\n"
    mapOrder := []
    ps := fun _ => none
    kill := fun _ => true
    diskutil := fun _ => true }

/-- The `ps` lookup of a pid failed: the call returned an error, or printed fewer
than two fields. -/
def lookupFails (w : World) (pid : Int) : Bool :=
  match w.ps pid with
  | none => true
  | some out => decide ((Fields out).length < 2)

/-- A second world for the example: the same user, process answers and pid set as
`demoWorld true true`, from different raw outputs; the pids come in another order,
every signal fails, and the forced eject (never called) would fail. -/
def demoWorldB : World :=
  { whoami := some " me"
    lsof := some ("bash 200 root cwd DIR 1,4 96 2 /Volumes/ExternalSSD\n" ++
      "gone 400 me 3r REG 1,4 10 79 /Volumes/ExternalSSD/tmp\n" ++
      "node +100 me cwd DIR 1,4 96 2 /Volumes/ExternalSSD/app\n" ++
      "vim 300 me 4r REG 1,4 10 77 /Volumes/ExternalSSD/notes.txt")
    mapOrder := [3, 1, 0, 2]
    ps := fun pid =>
      if pid = 100 then some "  node\tme"
      else if pid = 200 then some "bash root extra"
      else if pid = 300 then some "vim   me\n\n"
      else if pid = 400 then some "gone"
      else some "other nobody"
    kill := fun _ => false
    diskutil := fun force => !force }

/-! ## Closed forms of the loop, used by the proofs -/

/-- The record the loop builds for a pid it keeps. -/
def recordOf (w : World) (pid : Int) : Process :=
  { PID := pid
    Command := (processInfo w pid).1
    User := (processInfo w pid).2
    Action := if whitelist.MatchString (processInfo w pid).1 then "terminate" else "skip" }

/-- The pids the loop keeps: those whose owner is the invoking user. -/
def retained (w : World) (user : String) (pids : List Int) : List Int :=
  pids.filter (fun pid => decide ((processInfo w pid).2 = user))

/-- The kill commands of a run over the kept pids. -/
def killsOf (w : World) (dryRun : Bool) (kept : List Int) : List Event :=
  if dryRun then []
  else (kept.filter (fun pid => whitelist.MatchString (processInfo w pid).1)).map
    (fun pid => Event.kill pid (w.kill pid))

/-- The unmount commands of a run. -/
def unmountsOf (w : World) (dryRun : Bool) : List Event :=
  if dryRun then []
  else if w.diskutil false then [Event.unmount false]
  else [Event.unmount false, Event.unmount true]

/-! ## The specification's own words, for comparison -/

/-- The UnmountManager state machine as the specification tabulates it: the
fields (unmountAttempted, unmountSuccess, forceEjectUsed, message). -/
def specUnmountOutcome (dryRun normalOk forcedOk : Bool) : Bool × Bool × Bool × String :=
  if dryRun then (false, false, false, "Dry run only — no unmount attempted")
  else if normalOk then (true, true, false, "Volume unmounted successfully")
  else if forcedOk then (true, true, true, "Force eject was required but succeeded")
  else (true, false, false, "Unmount failed even after force eject")

/-- The whitelist of developer-tool names as the specification lists it. -/
def whitelistNames : List String :=
  ["node", "npm", "pnpm", "yarn", "code", "intellij", "idea", "java"]

/-- A string with its letters `A`–`Z` lowered. -/
def lowerCase (s : List Char) : List Char := s.map Char.toLower

/-- The string `s` contains `name`, ignoring letter case. -/
def containsIgnoringCase (s name : String) : Bool :=
  decide (lowerCase name.data <:+: lowerCase s.data)

/-- The command matches the whitelist as the specification words it: it contains
one of the names as a substring, ignoring letter case. -/
def commandMatches (cmd : String) : Bool :=
  whitelistNames.any (fun name => containsIgnoringCase cmd name)

/-- The decimal digits. -/
def decimalDigits : List Char := ['0', '1', '2', '3', '4', '5', '6', '7', '8', '9']

/-- The number a string of decimal digits denotes. -/
def decimalValue (ds : List Char) : Nat :=
  ds.foldl (fun acc c => acc * 10 + decimalDigits.indexOf c) 0

/-- The text without its leading sign, when it has one. -/
def unsignedPart : List Char → List Char
  | [] => []
  | c :: cs => if c = '-' ∨ c = '+' then cs else c :: cs

/-- The text reads as the decimal integer `p`: an optional sign, then one or more
decimal digits and nothing else, denoting `p`. -/
def readsAsDecimal (s : String) (p : Int) : Bool :=
  !(unsignedPart s.data).isEmpty &&
    (unsignedPart s.data).all (fun c => decide (c ∈ decimalDigits)) &&
    decide (p = if s.data.head? = some '-' then -(decimalValue (unsignedPart s.data) : Int)
      else (decimalValue (unsignedPart s.data) : Int))

/-- The integer is a value of Go's 64-bit `int`. -/
def isGoInt (p : Int) : Bool :=
  decide (-(2 ^ 63 : Int) ≤ p ∧ p < 2 ^ 63)

/-- A line of `lsof` output names pid `p` as a user of the volume: it has at least
nine whitespace-separated fields, the ninth starts with `/Volumes/ExternalSSD`,
and the second reads as the decimal integer `p`. -/
def lineNames (line : String) (p : Int) : Bool :=
  match (Fields line)[1]?, (Fields line)[8]? with
  | some second, some ninth =>
    decide ("/Volumes/ExternalSSD".data <+: ninth.data) && readsAsDecimal second p
  | _, _ => false

/-- A world in which only the output of `lsof` matters. -/
def lsofWorld (out : Option String) : World :=
  { whoami := none
    lsof := out
    mapOrder := []
    ps := fun _ => none
    kill := fun _ => false
    diskutil := fun _ => false }

/-! ## Lemmas -/

theorem killsOf_nil (w : World) (dryRun : Bool) : killsOf w dryRun [] = [] := by
  unfold killsOf; split <;> rfl

theorem loop_fold (w : World) (user : String) (dryRun : Bool) (pids : List Int) :
    ∀ st : List Process × List Event,
      pids.foldl (loopBody w user dryRun) st =
        (st.1 ++ (retained w user pids).map (recordOf w),
          st.2 ++ killsOf w dryRun (retained w user pids)) := by
  induction pids with
  | nil => intro st; simp [retained, killsOf_nil]
  | cons pid rest ih =>
    intro st
    rw [List.foldl_cons, ih]
    by_cases ho : (processInfo w pid).2 = user
    · by_cases hm : whitelist.MatchString (processInfo w pid).1 = true <;>
        cases dryRun <;>
        simp [loopBody, retained, killsOf, recordOf, ho, hm, List.filter_cons]
    · simp [loopBody, retained, ho, List.filter_cons]

theorem runOn_processes (w : World) (dryRun : Bool) (pids : List Int) :
    (runOn w dryRun pids).1.Processes =
      sortSlice lessPID ((retained w (currentUser w) pids).map (recordOf w)) := by
  cases dryRun <;> cases h1 : w.diskutil false <;> cases h2 : w.diskutil true <;>
    simp [runOn, loop_fold, unmountVolume, h1, h2]

theorem runOn_events (w : World) (dryRun : Bool) (pids : List Int) :
    (runOn w dryRun pids).2 =
      killsOf w dryRun (retained w (currentUser w) pids) ++ unmountsOf w dryRun := by
  cases dryRun <;> cases h1 : w.diskutil false <;> cases h2 : w.diskutil true <;>
    simp [runOn, loop_fold, unmountVolume, unmountsOf, h1, h2]

theorem runOn_unmount_fields (w : World) (dryRun : Bool) (pids : List Int) :
    (runOn w dryRun pids).1.DryRun = dryRun ∧
    (runOn w dryRun pids).1.UnmountAttempted = !dryRun ∧
    (runOn w dryRun pids).1.UnmountSuccess =
      (!dryRun && (w.diskutil false || w.diskutil true)) ∧
    (runOn w dryRun pids).1.ForceEjectUsed =
      (!dryRun && !w.diskutil false && w.diskutil true) ∧
    (runOn w dryRun pids).1.Message =
      (if dryRun then "Dry run only — no unmount attempted"
       else if w.diskutil false then "Volume unmounted successfully"
       else if w.diskutil true then "Force eject was required but succeeded"
       else "Unmount failed even after force eject") := by
  cases dryRun <;> cases h1 : w.diskutil false <;> cases h2 : w.diskutil true <;>
    simp [runOn, unmountVolume, h1, h2]

theorem signalled_append (a b : List Event) : signalled (a ++ b) = signalled a ++ signalled b := by
  induction a with
  | nil => rfl
  | cons e es ih => cases e <;> simp [signalled, ih]

theorem unmountCalls_append (a b : List Event) :
    unmountCalls (a ++ b) = unmountCalls a ++ unmountCalls b := by
  induction a with
  | nil => rfl
  | cons e es ih => cases e <;> simp [unmountCalls, ih]

theorem signalled_killsOf (w : World) (dryRun : Bool) (kept : List Int) :
    signalled (killsOf w dryRun kept) =
      if dryRun then []
      else kept.filter (fun pid => whitelist.MatchString (processInfo w pid).1) := by
  unfold killsOf
  cases dryRun
  · simp only [Bool.false_eq_true, if_false]
    induction kept.filter (fun pid => whitelist.MatchString (processInfo w pid).1) with
    | nil => rfl
    | cons p ps ih => simp [signalled, ih]
  · rfl

theorem unmountCalls_killsOf (w : World) (dryRun : Bool) (kept : List Int) :
    unmountCalls (killsOf w dryRun kept) = [] := by
  unfold killsOf
  cases dryRun
  · simp only [Bool.false_eq_true, if_false]
    induction kept.filter (fun pid => whitelist.MatchString (processInfo w pid).1) with
    | nil => rfl
    | cons p ps ih => simp [unmountCalls, ih]
  · rfl

theorem signalled_unmountsOf (w : World) (dryRun : Bool) :
    signalled (unmountsOf w dryRun) = [] := by
  unfold unmountsOf; split
  · rfl
  · split <;> rfl

theorem unmountCalls_unmountsOf (w : World) (dryRun : Bool) :
    unmountCalls (unmountsOf w dryRun) =
      if dryRun then [] else if w.diskutil false then [false] else [false, true] := by
  unfold unmountsOf; split
  · rfl
  · split <;> rfl

theorem sortSlice_perm (xs : List Process) : (sortSlice lessPID xs).Perm xs :=
  List.perm_insertionSort _ xs

theorem sortSlice_sorted (xs : List Process) :
    (sortSlice lessPID xs).Pairwise (fun a b => a.PID ≤ b.PID) := by
  have htot : IsTotal Process (fun a b => lessPID b a = false) :=
    ⟨fun a b => by simp only [lessPID, decide_eq_false_iff_not, not_lt]; exact le_total _ _⟩
  have htr : IsTrans Process (fun a b => lessPID b a = false) :=
    ⟨fun a b c => by simp only [lessPID, decide_eq_false_iff_not, not_lt]; exact le_trans⟩
  have h := @List.sorted_insertionSort Process (fun a b => lessPID b a = false) _ htot htr xs
  refine List.Pairwise.imp ?_ h
  intro a b hab
  simpa [lessPID] using hab

theorem mem_processes (w : World) (dryRun : Bool) (pids : List Int) (p : Process) :
    p ∈ (runOn w dryRun pids).1.Processes ↔
      ∃ pid ∈ pids, (processInfo w pid).2 = currentUser w ∧ p = recordOf w pid := by
  rw [runOn_processes, (sortSlice_perm _).mem_iff]
  simp only [retained, List.mem_map, List.mem_filter, decide_eq_true_eq]
  constructor
  · rintro ⟨pid, ⟨h1, h2⟩, rfl⟩; exact ⟨pid, h1, h2, rfl⟩
  · rintro ⟨pid, h1, h2, rfl⟩; exact ⟨pid, ⟨h1, h2⟩, rfl⟩

theorem upper_cases (c : Char) (h : 65 ≤ c.toNat ∧ c.toNat ≤ 90) :
    c ∈ "ABCDEFGHIJKLMNOPQRSTUVWXYZ".data := by
  have hc := Char.ofNat_toNat c
  obtain ⟨h1, h2⟩ := h
  generalize c.toNat = n at hc h1 h2
  subst hc
  interval_cases n <;> decide

theorem pattern_runes :
    ∀ a ∈ whitelist.alternatives, ∀ p ∈ a.data,
      foldOrbit p = [p.toLower, p.toUpper] ∧ 65 ≤ p.toUpper.toNat ∧ p.toUpper.toNat ≤ 90 ∧
      (∀ c ∈ "ABCDEFGHIJKLMNOPQRSTUVWXYZ".data,
        ((foldOrbit p).elem c = true ↔ c.toLower = p.toLower)) := by
  decide

theorem runeMatches_iff (a : String) (ha : a ∈ whitelist.alternatives) (p : Char)
    (hp : p ∈ a.data) (c : Char) :
    runeMatches true p c = true ↔ c.toLower = p.toLower := by
  obtain ⟨horb, hu1, hu2, hup⟩ := pattern_runes a ha p hp
  simp only [runeMatches, if_true]
  by_cases h : 65 ≤ c.toNat ∧ c.toNat ≤ 90
  · exact hup c (upper_cases c h)
  · have hl : c.toLower = c := by
      simp only [Char.toLower]
      rw [if_neg]
      simpa using h
    rw [hl, horb]
    simp only [List.elem_eq_mem, List.mem_cons, List.mem_singleton, decide_eq_true_eq, List.not_mem_nil, or_false]
    constructor
    · rintro (h1 | h1)
      · exact h1
      · exact absurd (h1 ▸ ⟨hu1, hu2⟩) h
    · intro h1; exact Or.inl h1


theorem literalAt_iff (pat : List Char)
    (h : ∀ p ∈ pat, ∀ c, runeMatches true p c = true ↔ c.toLower = p.toLower) :
    ∀ s : List Char, literalAt true pat s = true ↔ lowerCase pat <+: lowerCase s := by
  induction pat with
  | nil => intro s; simp [literalAt, lowerCase]
  | cons p ps ih =>
    intro s
    cases s with
    | nil => simp [literalAt, lowerCase]
    | cons c cs =>
      have ih2 := ih (fun q hq => h q (List.mem_cons_of_mem _ hq)) cs
      have h1 := h p (List.mem_cons_self _ _) c
      simp only [literalAt, Bool.and_eq_true, lowerCase, List.map_cons, List.cons_prefix_cons]
      simp only [lowerCase] at ih2
      rw [h1, ih2]
      constructor
      · rintro ⟨a, b⟩; exact ⟨a.symm, b⟩
      · rintro ⟨a, b⟩; exact ⟨a.symm, b⟩

theorem matchAt_whitelist_iff (s : List Char) :
    matchAt whitelist s = true ↔
      ∃ a ∈ whitelist.alternatives, lowerCase a.data <+: lowerCase s := by
  simp only [matchAt, List.any_eq_true]
  constructor
  · rintro ⟨a, ha, hm⟩
    exact ⟨a, ha, (literalAt_iff a.data (fun p hp c => runeMatches_iff a ha p hp c) s).1 hm⟩
  · rintro ⟨a, ha, hm⟩
    exact ⟨a, ha, (literalAt_iff a.data (fun p hp c => runeMatches_iff a ha p hp c) s).2 hm⟩

theorem matchFrom_whitelist_iff (s : List Char) :
    matchFrom whitelist s = true ↔
      ∃ a ∈ whitelist.alternatives, lowerCase a.data <:+: lowerCase s := by
  induction s with
  | nil =>
    simp only [matchFrom, matchAt_whitelist_iff, lowerCase, List.map_nil]
    constructor
    · rintro ⟨a, ha, hm⟩; exact ⟨a, ha, hm.isInfix⟩
    · rintro ⟨a, ha, hm⟩
      refine ⟨a, ha, ?_⟩
      rw [List.eq_nil_of_infix_nil hm]
  | cons c cs ih =>
    simp only [matchFrom, Bool.or_eq_true, matchAt_whitelist_iff, ih]
    simp only [lowerCase, List.map_cons, List.infix_cons_iff]
    constructor
    · rintro (⟨a, ha, hm⟩ | ⟨a, ha, hm⟩)
      · exact ⟨a, ha, Or.inl hm⟩
      · exact ⟨a, ha, Or.inr hm⟩
    · rintro ⟨a, ha, hm | hm⟩
      · exact Or.inl ⟨a, ha, hm⟩
      · exact Or.inr ⟨a, ha, hm⟩

theorem alternatives_lower :
    ∀ a ∈ whitelist.alternatives, ∃ n ∈ whitelistNames, lowerCase n.data = lowerCase a.data := by
  decide

theorem names_lower :
    ∀ n ∈ whitelistNames, ∃ a ∈ whitelist.alternatives, lowerCase a.data = lowerCase n.data := by
  decide

theorem whitelist_matches_iff (cmd : String) :
    whitelist.MatchString cmd = commandMatches cmd := by
  rw [Bool.eq_iff_iff]
  simp only [Regexp.MatchString, matchFrom_whitelist_iff, commandMatches, containsIgnoringCase,
    List.any_eq_true, decide_eq_true_eq]
  constructor
  · rintro ⟨a, ha, hm⟩
    obtain ⟨n, hn, he⟩ := alternatives_lower a ha
    exact ⟨n, hn, he ▸ hm⟩
  · rintro ⟨n, hn, hm⟩
    obtain ⟨a, ha, he⟩ := names_lower n hn
    exact ⟨a, ha, he ▸ hm⟩

theorem mapRange_perm : ∀ (order : List Nat) (keys : List Int),
    (mapRange order keys).Perm keys := by
  intro order keys
  induction keys generalizing order with
  | nil => cases order <;> simp [mapRange]
  | cons k ks ih =>
    cases order with
    | nil => simpa [mapRange] using ih []
    | cons n ns =>
      simp only [mapRange]
      refine (List.perm_insertIdx k _ ?_).trans ((ih ns).cons k)
      exact Nat.le_of_lt_succ (Nat.mod_lt _ (Nat.succ_pos _))

theorem mem_mapInsert (acc : List Int) (p q : Int) :
    q ∈ mapInsert acc p ↔ q ∈ acc ∨ q = p := by
  unfold mapInsert
  split
  · constructor
    · exact Or.inl
    · rintro (h | rfl)
      · exact h
      · assumption
  · simp

theorem nodup_mapInsert (acc : List Int) (p : Int) (h : acc.Nodup) :
    (mapInsert acc p).Nodup := by
  unfold mapInsert
  split
  · exact h
  · rename_i hp
    rw [List.nodup_append]
    refine ⟨h, List.nodup_singleton p, ?_⟩
    intro a ha hb
    rw [List.mem_singleton] at hb
    subst hb
    exact hp ha

theorem digit_cases (c : Char) (h : 48 ≤ c.toNat ∧ c.toNat ≤ 57) :
    c ∈ decimalDigits ∧ decimalDigits.indexOf c = c.toNat - 48 := by
  have hc := Char.ofNat_toNat c
  obtain ⟨h1, h2⟩ := h
  generalize c.toNat = n at hc h1 h2
  subst hc
  interval_cases n <;> decide

theorem digits_range : ∀ c ∈ decimalDigits, 48 ≤ c.toNat ∧ c.toNat ≤ 57 := by
  decide

theorem digitVal_eq (c : Char) :
    digitVal c = if c ∈ decimalDigits then some (decimalDigits.indexOf c) else none := by
  unfold digitVal
  by_cases h : 48 ≤ c.toNat ∧ c.toNat ≤ 57
  · rw [if_pos h, if_pos (digit_cases c h).1, (digit_cases c h).2]
  · rw [if_neg h, if_neg (fun hm => h (digits_range c hm))]

theorem parseDigits_eq (ds : List Char) : ∀ acc : Nat,
    parseDigits acc ds =
      if ds.all (fun c => decide (c ∈ decimalDigits)) = true then
        some (ds.foldl (fun a c => a * 10 + decimalDigits.indexOf c) acc)
      else none := by
  induction ds with
  | nil => intro acc; rfl
  | cons c cs ih =>
    intro acc
    simp only [parseDigits, digitVal_eq, List.all_cons, List.foldl_cons, Bool.and_eq_true,
      decide_eq_true_eq]
    by_cases hc : c ∈ decimalDigits
    · simp only [hc, if_true, true_and, ih]
    · simp only [hc, if_false, false_and]

theorem Atoi_unsigned (s : String) :
    Atoi s =
      if (unsignedPart s.data).isEmpty = true then none
      else if (unsignedPart s.data).all (fun c => decide (c ∈ decimalDigits)) = true then
        (if s.data.head? = some '-' then
          (if decimalValue (unsignedPart s.data) ≤ 2 ^ 63 then
            some (-(decimalValue (unsignedPart s.data) : Int)) else none)
        else
          (if decimalValue (unsignedPart s.data) < 2 ^ 63 then
            some (decimalValue (unsignedPart s.data) : Int) else none))
      else none := by
  unfold Atoi
  cases hs : s.data with
  | nil => rfl
  | cons c cs =>
    simp only [unsignedPart, List.head?_cons, Option.some.injEq]
    generalize (if c = '-' ∨ c = '+' then cs else c :: cs) = ds
    cases ds with
    | nil => rfl
    | cons d ds' =>
      simp only [parseDigits_eq, List.isEmpty_cons, Bool.false_eq_true, if_false, decimalValue]
      by_cases hall : (d :: ds').all (fun c => decide (c ∈ decimalDigits)) = true
      · simp only [hall, if_true, decide_eq_true_eq]
      · simp only [hall, if_false, Bool.false_eq_true]

theorem Atoi_iff (s : String) (p : Int) :
    Atoi s = some p ↔ (readsAsDecimal s p = true ∧ isGoInt p = true) := by
  rw [Atoi_unsigned]
  unfold readsAsDecimal isGoInt
  generalize unsignedPart s.data = ds
  generalize decimalValue ds = n
  have hpow : (2 : Int) ^ 63 = 9223372036854775808 := by norm_num
  have hpowN : (2 : Nat) ^ 63 = 9223372036854775808 := by norm_num
  rw [hpow, hpowN]
  cases hE : ds.isEmpty
  · cases hA : ds.all (fun c => decide (c ∈ decimalDigits))
    · simp
    · by_cases hneg : s.data.head? = some '-'
      · simp only [hneg, if_true, Bool.false_eq_true, if_false, Bool.not_false, Bool.true_and,
          Bool.and_eq_true, decide_eq_true_eq]
        by_cases hn : n ≤ 9223372036854775808
        · rw [if_pos hn]
          constructor
          · intro h
            have := Option.some.inj h
            subst this
            refine ⟨rfl, ?_, ?_⟩ <;> omega
          · rintro ⟨rfl, _, _⟩; rfl
        · rw [if_neg hn]
          constructor
          · intro h; exact absurd h (by simp)
          · rintro ⟨rfl, h1, _⟩; omega
      · simp only [hneg, if_false, Bool.false_eq_true, Bool.not_false, Bool.true_and,
          Bool.and_eq_true, decide_eq_true_eq]
        by_cases hn : n < 9223372036854775808
        · rw [if_pos hn]
          constructor
          · intro h
            have := Option.some.inj h
            subst this
            refine ⟨rfl, ?_, ?_⟩ <;> omega
          · rintro ⟨rfl, _, _⟩; rfl
        · rw [if_neg hn]
          constructor
          · intro h; exact absurd h (by simp)
          · rintro ⟨rfl, _, h2⟩; omega
  · simp

theorem lineNames_iff (line : String) (p : Int) :
    (lineNames line p = true ∧ isGoInt p = true) ↔
      (¬ (Fields line).length < 9 ∧
        startsWith ((Fields line).getD 8 "") targetVolume = true ∧
        Atoi ((Fields line).getD 1 "") = some p) := by
  unfold lineNames startsWith
  by_cases hlen : (Fields line).length < 9
  · have h8 : (Fields line)[8]? = none := List.getElem?_eq_none (by omega)
    rw [h8]
    constructor
    · intro h
      obtain ⟨h, _⟩ := h
      split at h <;> simp_all
    · intro h; exact absurd hlen h.1
  · have h8 : 8 < (Fields line).length := by omega
    have h1 : 1 < (Fields line).length := by omega
    rw [List.getElem?_eq_getElem h1, List.getElem?_eq_getElem h8,
      List.getD_eq_getElem _ _ h8, List.getD_eq_getElem _ _ h1, Atoi_iff]
    simp only [targetVolume, Bool.and_eq_true, decide_eq_true_eq, List.isPrefixOf_iff_prefix]
    exact ⟨fun h => ⟨hlen, h.1.1, h.1.2, h.2⟩, fun h => ⟨⟨h.2.1, h.2.2.1⟩, h.2.2.2⟩⟩

theorem mem_scanLine (acc : List Int) (line : String) (q : Int) :
    q ∈ scanLine acc line ↔ q ∈ acc ∨ (lineNames line q = true ∧ isGoInt q = true) := by
  rw [lineNames_iff]
  unfold scanLine
  simp only
  generalize (Fields line).getD 8 "" = f8
  generalize (Fields line).getD 1 "" = f1
  generalize (Fields line).length = len
  generalize startsWith f8 targetVolume = b
  by_cases h : len < 9
  · rw [if_pos h]
    exact ⟨Or.inl, fun hq => hq.elim id (fun hn => absurd h hn.1)⟩
  · rw [if_neg h]
    cases b with
    | false =>
      rw [if_neg (by simp)]
      exact ⟨Or.inl, fun hq => hq.elim id (fun hn => absurd hn.2.1 (by simp))⟩
    | true =>
      rw [if_pos rfl]
      cases ha : Atoi f1 with
      | none =>
        exact ⟨Or.inl, fun hq => hq.elim id (fun hn => absurd hn.2.2 (by simp))⟩
      | some pid =>
        simp only [mem_mapInsert]
        constructor
        · rintro (hq | rfl)
          · exact Or.inl hq
          · exact Or.inr ⟨h, trivial, rfl⟩
        · rintro (hq | ⟨_, _, hn⟩)
          · exact Or.inl hq
          · exact Or.inr (Option.some.inj hn).symm

theorem nodup_scanLine (acc : List Int) (line : String) (h : acc.Nodup) :
    (scanLine acc line).Nodup := by
  unfold scanLine
  simp only
  split
  · exact h
  · split
    · split
      · exact nodup_mapInsert _ _ h
      · exact h
    · exact h

theorem mem_scan (lines : List String) :
    ∀ (acc : List Int) (q : Int),
      q ∈ lines.foldl scanLine acc ↔
        q ∈ acc ∨ ∃ line ∈ lines, lineNames line q = true ∧ isGoInt q = true := by
  induction lines with
  | nil => intro acc q; simp
  | cons l ls ih =>
    intro acc q
    rw [List.foldl_cons, ih, mem_scanLine]
    simp only [List.mem_cons, exists_eq_or_imp, or_assoc]

theorem nodup_scan (lines : List String) :
    ∀ acc : List Int, acc.Nodup → (lines.foldl scanLine acc).Nodup := by
  induction lines with
  | nil => intro acc h; exact h
  | cons l ls ih => intro acc h; exact ih _ (nodup_scanLine acc l h)

theorem findPIDs_nodup (w : World) : (findPIDsUsingVolume w).Nodup := by
  unfold findPIDsUsingVolume
  split
  · exact List.nodup_nil
  · exact (mapRange_perm _ _).nodup_iff.2 (nodup_scan _ _ List.nodup_nil)

theorem map_PID_recordOf (w : World) (xs : List Int) :
    (xs.map (recordOf w)).map Process.PID = xs := by
  induction xs with
  | nil => rfl
  | cons x xs ih => simp only [List.map_cons, ih]; rfl

theorem terminate_pids_recordOf (w : World) (xs : List Int) :
    ((xs.map (recordOf w)).filter (fun p => decide (p.Action = "terminate"))).map Process.PID =
      xs.filter (fun pid => whitelist.MatchString (processInfo w pid).1) := by
  induction xs with
  | nil => rfl
  | cons x xs ih =>
    simp only [List.map_cons, List.filter_cons]
    cases hm : whitelist.MatchString (processInfo w x).1
    · have : ¬ (recordOf w x).Action = "terminate" := by
        simp only [recordOf, hm]; decide
      simp only [this, decide_False, Bool.false_eq_true, if_false, ih]
    · have : (recordOf w x).Action = "terminate" := by
        simp only [recordOf, hm]; rfl
      simp only [this, decide_True, if_true, List.map_cons, ih]
      rfl

theorem signalled_runOn (w : World) (dryRun : Bool) (pids : List Int) :
    signalled (runOn w dryRun pids).2 =
      if dryRun then []
      else (retained w (currentUser w) pids).filter
        (fun pid => whitelist.MatchString (processInfo w pid).1) := by
  rw [runOn_events, signalled_append, signalled_killsOf, signalled_unmountsOf, List.append_nil]

theorem processes_pids_perm (w : World) (dryRun : Bool) (pids : List Int) :
    ((runOn w dryRun pids).1.Processes.map Process.PID).Perm
      (retained w (currentUser w) pids) := by
  rw [runOn_processes]
  have h := (sortSlice_perm ((retained w (currentUser w) pids).map (recordOf w))).map Process.PID
  rwa [map_PID_recordOf] at h

theorem runOn_fst (w : World) (dryRun : Bool) (pids : List Int) :
    (runOn w dryRun pids).1 =
      { DryRun := dryRun
        Processes := sortSlice lessPID ((retained w (currentUser w) pids).map (recordOf w))
        UnmountAttempted := !dryRun
        UnmountSuccess := !dryRun && (w.diskutil false || w.diskutil true)
        ForceEjectUsed := !dryRun && !w.diskutil false && w.diskutil true
        Message :=
          if dryRun then "Dry run only — no unmount attempted"
          else if w.diskutil false then "Volume unmounted successfully"
          else if w.diskutil true then "Force eject was required but succeeded"
          else "Unmount failed even after force eject" } := by
  cases dryRun <;> cases h1 : w.diskutil false <;> cases h2 : w.diskutil true <;>
    simp [runOn, loop_fold, unmountVolume, h1, h2]

theorem processInfo_of_lookupFails (w : World) (pid : Int) (h : lookupFails w pid = true) :
    processInfo w pid = ("", "") := by
  unfold processInfo parseProcessInfo
  unfold lookupFails at h
  cases hps : w.ps pid with
  | none => rfl
  | some out =>
    rw [hps] at h
    simp only [decide_eq_true_eq] at h
    simp only
    split
    · rename_i hf
      rw [hf] at h
      simp only [List.length_cons] at h
      omega
    · rfl

theorem sorted_records_unique (f : Int → Process) (l₁ l₂ : List Process)
    (hp : l₁.Perm l₂)
    (h₁ : l₁.Pairwise (fun a b => a.PID ≤ b.PID))
    (h₂ : l₂.Pairwise (fun a b => a.PID ≤ b.PID))
    (hf : ∀ x ∈ l₁, f x.PID = x) : l₁ = l₂ := by
  have hm : l₁.map Process.PID = l₂.map Process.PID :=
    List.eq_of_perm_of_sorted (hp.map _)
      (show List.Sorted (· ≤ ·) _ from List.pairwise_map.2 h₁)
      (show List.Sorted (· ≤ ·) _ from List.pairwise_map.2 h₂)
  have e₁ : (l₁.map Process.PID).map f = l₁ := by
    rw [List.map_map]
    conv_rhs => rw [← List.map_id l₁]
    exact List.map_congr_left (fun x hx => hf x hx)
  have e₂ : (l₂.map Process.PID).map f = l₂ := by
    rw [List.map_map]
    conv_rhs => rw [← List.map_id l₂]
    exact List.map_congr_left (fun x hx => hf x (hp.mem_iff.2 hx))
  rw [← e₁, ← e₂, hm]

theorem processes_eq_of_same_pids (w₁ w₂ : World) (pids₁ pids₂ : List Int)
    (hwho : currentUser w₁ = currentUser w₂)
    (hps : ∀ pid ∈ pids₁, processInfo w₁ pid = processInfo w₂ pid)
    (hperm : pids₁.Perm pids₂) :
    sortSlice lessPID ((retained w₁ (currentUser w₁) pids₁).map (recordOf w₁)) =
      sortSlice lessPID ((retained w₂ (currentUser w₂) pids₂).map (recordOf w₂)) := by
  have hret₁ : retained w₂ (currentUser w₂) pids₁ = retained w₁ (currentUser w₁) pids₁ := by
    unfold retained
    apply List.filter_congr
    intro pid hpid
    rw [hps pid hpid, hwho]
  have hmap : (retained w₁ (currentUser w₁) pids₁).map (recordOf w₂) =
      (retained w₁ (currentUser w₁) pids₁).map (recordOf w₁) := by
    apply List.map_congr_left
    intro pid hpid
    have hin : pid ∈ pids₁ := (List.mem_filter.1 hpid).1
    simp only [recordOf, hps pid hin]
  have hrec : ((retained w₁ (currentUser w₁) pids₁).map (recordOf w₁)).Perm
      ((retained w₂ (currentUser w₂) pids₂).map (recordOf w₂)) := by
    rw [← hmap, ← hret₁]
    exact ((hperm.filter _).map _)
  refine sorted_records_unique (recordOf w₁) _ _ ?_ (sortSlice_sorted _) (sortSlice_sorted _) ?_
  · exact (sortSlice_perm _).trans (hrec.trans (sortSlice_perm _).symm)
  · intro x hx
    rw [(sortSlice_perm _).mem_iff, List.mem_map] at hx
    obtain ⟨pid, _, rfl⟩ := hx
    rfl

theorem findPIDs_perm_of_lsof (w₁ w₂ : World) (h : w₁.lsof = w₂.lsof) :
    (findPIDsUsingVolume w₁).Perm (findPIDsUsingVolume w₂) := by
  unfold findPIDsUsingVolume
  rw [h]
  split
  · exact List.Perm.refl _
  · exact (mapRange_perm _ _).trans (mapRange_perm _ _).symm

/-! ## The claims -/

/-- C1. Every record of the result carries the invoking user as its `User`, and a
pid whose owner differs from the invoking user has no record in the result; for
any dry-run flag, any `whoami`, `ps` answers and any list of scanned pids. -/
theorem C1_records_owned_by_invoking_user (w : World) (dryRun : Bool) (pids : List Int) :
    (∀ p ∈ (runOn w dryRun pids).1.Processes, p.User = currentUser w) ∧
    (∀ pid, (processInfo w pid).2 ≠ currentUser w →
      ∀ p ∈ (runOn w dryRun pids).1.Processes, p.PID ≠ pid) := by
  constructor
  · intro p hp
    obtain ⟨pid, _, ho, rfl⟩ := (mem_processes w dryRun pids p).1 hp
    exact ho
  · intro pid hne p hp hpid
    obtain ⟨q, _, ho, rfl⟩ := (mem_processes w dryRun pids p).1 hp
    have : q = pid := hpid
    subst this
    exact hne ho

/-- C2. Every record's `Action` is "terminate" exactly when its command contains one
of node, npm, pnpm, yarn, code, intellij, idea, java ignoring letter case, and "skip"
exactly when it does not; no third value occurs.  The compiled pattern agrees with
that wording on every string ("vim" does not match, "node" does), and the records
are the same in a dry run and a real run. -/
theorem C2_action_iff_whitelist (w : World) (dryRun : Bool) (pids : List Int) :
    (∀ p ∈ (runOn w dryRun pids).1.Processes,
      (p.Action = "terminate" ↔ commandMatches p.Command = true) ∧
      (p.Action = "skip" ↔ commandMatches p.Command = false) ∧
      (p.Action = "terminate" ∨ p.Action = "skip")) ∧
    (∀ cmd, whitelist.MatchString cmd = commandMatches cmd) ∧
    whitelist.MatchString "vim" = false ∧ whitelist.MatchString "node" = true ∧
    (run (demoWorld true true) false).1.Processes =
      [{ PID := 100, Command := "node", User := "me", Action := "terminate" },
        { PID := 300, Command := "vim", User := "me", Action := "skip" }] ∧
    (runOn w true pids).1.Processes = (runOn w false pids).1.Processes := by
  refine ⟨?_, whitelist_matches_iff, by decide, by decide, by decide, ?_⟩
  · intro p hp
    obtain ⟨pid, _, _, rfl⟩ := (mem_processes w dryRun pids p).1 hp
    simp only [recordOf, whitelist_matches_iff]
    cases commandMatches (processInfo w pid).1 <;> simp
  · rw [runOn_processes, runOn_processes]

/-- C3. The unmount fields of the result are the specification's state machine
applied to the dry-run flag and the two `diskutil` outcomes.  In a real run
`UnmountAttempted` is set and the three outcomes are: normal unmount succeeds;
normal fails and the forced eject succeeds; both fail — each with its fields and
message, whatever pids were scanned. -/
theorem C3_unmount_fields (w : World) (dryRun : Bool) (pids : List Int) :
    ((runOn w dryRun pids).1.UnmountAttempted, (runOn w dryRun pids).1.UnmountSuccess,
      (runOn w dryRun pids).1.ForceEjectUsed, (runOn w dryRun pids).1.Message) =
      specUnmountOutcome dryRun (w.diskutil false) (w.diskutil true) ∧
    (runOn w false pids).1.UnmountAttempted = true ∧
    (w.diskutil false = true →
      (runOn w false pids).1.UnmountSuccess = true ∧
      (runOn w false pids).1.ForceEjectUsed = false ∧
      (runOn w false pids).1.Message = "Volume unmounted successfully") ∧
    (w.diskutil false = false → w.diskutil true = true →
      (runOn w false pids).1.UnmountSuccess = true ∧
      (runOn w false pids).1.ForceEjectUsed = true ∧
      (runOn w false pids).1.Message = "Force eject was required but succeeded") ∧
    (w.diskutil false = false → w.diskutil true = false →
      (runOn w false pids).1.UnmountSuccess = false ∧
      (runOn w false pids).1.ForceEjectUsed = false ∧
      (runOn w false pids).1.Message = "Unmount failed even after force eject") := by
  obtain ⟨_, h2, h3, h4, h5⟩ := runOn_unmount_fields w dryRun pids
  obtain ⟨_, g2, g3, g4, g5⟩ := runOn_unmount_fields w false pids
  refine ⟨?_, ?_, ?_, ?_, ?_⟩
  · rw [h2, h3, h4, h5]
    cases dryRun <;> cases w.diskutil false <;> cases w.diskutil true <;> rfl
  · rw [g2]; rfl
  · intro h; rw [g3, g4, g5, h]; simp
  · intro h h'; rw [g3, g4, g5, h, h']; simp
  · intro h h'; rw [g3, g4, g5, h, h']; simp

/-- C4. A dry run issues no command at all — no signal and no unmount call,
normal or forced — and its result has `DryRun = true`, `UnmountAttempted = false`,
`UnmountSuccess = false`, `ForceEjectUsed = false` and the fixed dry-run message,
for any scanned pids, owners, commands and `diskutil` answers. -/
theorem C4_dry_run_has_no_effects (w : World) (pids : List Int) :
    (runOn w true pids).2 = [] ∧
    signalled (runOn w true pids).2 = [] ∧
    unmountCalls (runOn w true pids).2 = [] ∧
    (runOn w true pids).1.DryRun = true ∧
    (runOn w true pids).1.UnmountAttempted = false ∧
    (runOn w true pids).1.UnmountSuccess = false ∧
    (runOn w true pids).1.ForceEjectUsed = false ∧
    (runOn w true pids).1.Message = "Dry run only — no unmount attempted" := by
  have he : (runOn w true pids).2 = [] := by
    rw [runOn_events]; simp [killsOf, unmountsOf]
  obtain ⟨h1, h2, h3, h4, h5⟩ := runOn_unmount_fields w true pids
  refine ⟨he, ?_, ?_, h1, ?_, ?_, ?_, ?_⟩
  · rw [he]; rfl
  · rw [he]; rfl
  · rw [h2]; rfl
  · rw [h3]; rfl
  · rw [h4]; rfl
  · rw [h5]; rfl

/-- C5, the claim as stated fails: when `whoami` fails and the `ps` lookup of pid
400 fails, the real run reports pid 400 as a record with empty command and user. -/
theorem C5_counterexample :
    lookupFails lostWorld 400 = true ∧ processInfo lostWorld 400 = ("", "") ∧
    currentUser lostWorld = "" ∧ 400 ∈ findPIDsUsingVolume lostWorld ∧
    (run lostWorld false).1.Processes =
      [{ PID := 400, Command := "", User := "", Action := "skip" }] ∧
    ¬ (∀ p ∈ (run lostWorld false).1.Processes, p.PID ≠ 400) := by
  decide

/-- C5, amended. A scanned pid whose `ps` lookup fails is never signalled, for any
invoking user; and when the invoking user is not the empty string it has no
record in the result. -/
theorem C5_failed_lookup_excluded (w : World) (dryRun : Bool) (pids : List Int) (pid : Int)
    (hfail : lookupFails w pid = true) :
    pid ∉ signalled (runOn w dryRun pids).2 ∧
    (currentUser w ≠ "" → ∀ p ∈ (runOn w dryRun pids).1.Processes, p.PID ≠ pid) := by
  have hinfo := processInfo_of_lookupFails w pid hfail
  constructor
  · rw [signalled_runOn]
    cases dryRun
    · simp only [Bool.false_eq_true, if_false, List.mem_filter, not_and]
      intro _
      rw [hinfo]
      decide
    · simp
  · intro hne p hp hpid
    obtain ⟨q, _, ho, rfl⟩ := (mem_processes w dryRun pids p).1 hp
    have hq : q = pid := hpid
    subst hq
    rw [hinfo] at ho
    exact hne ho.symm

/-- C5, an instance: in the example world pid 400 is scanned, its lookup fails, and it
is neither signalled nor reported. -/
theorem C5_witness :
    lookupFails (demoWorld true true) 400 = true ∧
    400 ∈ findPIDsUsingVolume (demoWorld true true) ∧
    400 ∉ signalled (run (demoWorld true true) false).2 ∧
    ∀ p ∈ (run (demoWorld true true) false).1.Processes, p.PID ≠ 400 :=
  have h := C5_failed_lookup_excluded (demoWorld true true) false
    (findPIDsUsingVolume (demoWorld true true)) 400 rfl
  ⟨rfl, by decide, h.1, h.2 (by decide)⟩

/-- C6. In a real run the signalled pids are, with multiplicity, the pids of the
records whose `Action` is "terminate"; every signalled pid is owned by the invoking
user and has a whitelisted command; and on the scanner's pid list no pid is
signalled twice.  With candidates 100 (own, node), 200 (other, bash), 300 (own, vim)
only pid 100 is signalled. -/
theorem C6_signals_are_terminate_records (w : World) (pids : List Int) :
    (signalled (runOn w false pids).2).Perm
      (((runOn w false pids).1.Processes.filter
        (fun p => decide (p.Action = "terminate"))).map Process.PID) ∧
    (∀ pid ∈ signalled (runOn w false pids).2,
      (processInfo w pid).2 = currentUser w ∧
      whitelist.MatchString (processInfo w pid).1 = true) ∧
    (signalled (run w false).2).Nodup ∧
    (∀ pid, pid ∈ signalled (run w false).2 ↔
      ∃ p ∈ (run w false).1.Processes, p.PID = pid ∧ p.Action = "terminate") ∧
    signalled (run (demoWorld true true) false).2 = [100] := by
  have hperm : ∀ l : List Int, (signalled (runOn w false l).2).Perm
      (((runOn w false l).1.Processes.filter
        (fun p => decide (p.Action = "terminate"))).map Process.PID) := by
    intro l
    rw [signalled_runOn, runOn_processes]
    simp only [Bool.false_eq_true, if_false]
    rw [← terminate_pids_recordOf]
    exact (((sortSlice_perm _).filter _).map _).symm
  refine ⟨hperm pids, ?_, ?_, ?_, by decide⟩
  · intro pid hpid
    rw [signalled_runOn] at hpid
    simp only [Bool.false_eq_true, if_false, retained, List.mem_filter, decide_eq_true_eq] at hpid
    exact ⟨hpid.1.2, hpid.2⟩
  · unfold run
    rw [signalled_runOn]
    simp only [Bool.false_eq_true, if_false, retained]
    exact ((findPIDs_nodup w).filter _).filter _
  · intro pid
    unfold run
    rw [(hperm _).mem_iff]
    simp only [List.mem_map, List.mem_filter, decide_eq_true_eq]
    constructor
    · rintro ⟨p, ⟨hp, ha⟩, rfl⟩; exact ⟨p, hp, rfl, ha⟩
    · rintro ⟨p, hp, rfl, ha⟩; exact ⟨p, ⟨hp, ha⟩, rfl⟩

/-- C7. The records of the result are sorted ascending by PID and are a
permutation of the records the filter loop appended; on the scanner's pid list
the PIDs are strictly ascending.  The order does not depend on how `sort.Slice`
sorts: any PID-ascending permutation of the loop's records is the result's list. -/
theorem C7_processes_sorted_permutation (w : World) (dryRun : Bool) (pids : List Int) :
    (∀ i j : Fin (runOn w dryRun pids).1.Processes.length, i < j →
      ((runOn w dryRun pids).1.Processes.get i).PID ≤
        ((runOn w dryRun pids).1.Processes.get j).PID) ∧
    (runOn w dryRun pids).1.Processes.Perm
      (pids.foldl (loopBody w (currentUser w) dryRun) ([], [])).1 ∧
    (∀ i j : Fin (run w dryRun).1.Processes.length, i < j →
      ((run w dryRun).1.Processes.get i).PID < ((run w dryRun).1.Processes.get j).PID) ∧
    (∀ sorted : List Process,
      sorted.Perm (pids.foldl (loopBody w (currentUser w) dryRun) ([], [])).1 →
      sorted.Pairwise (fun a b => a.PID ≤ b.PID) →
      sorted = (runOn w dryRun pids).1.Processes) := by
  refine ⟨?_, ?_, ?_, ?_⟩
  rotate_right
  · intro sorted hperm hsorted
    rw [loop_fold] at hperm
    simp only [List.nil_append] at hperm
    rw [runOn_processes]
    refine sorted_records_unique (recordOf w) _ _ (hperm.trans (sortSlice_perm _).symm)
      hsorted (sortSlice_sorted _) ?_
    intro x hx
    rw [hperm.mem_iff, List.mem_map] at hx
    obtain ⟨pid, _, rfl⟩ := hx
    rfl
  · have h := sortSlice_sorted ((retained w (currentUser w) pids).map (recordOf w))
    rw [← runOn_processes w dryRun pids] at h
    exact List.pairwise_iff_get.1 h
  · rw [runOn_processes, loop_fold]
    exact sortSlice_perm _
  · unfold run
    have h := sortSlice_sorted
      ((retained w (currentUser w) (findPIDsUsingVolume w)).map (recordOf w))
    rw [← runOn_processes w dryRun] at h
    have hnd : ((runOn w dryRun (findPIDsUsingVolume w)).1.Processes.map Process.PID).Nodup :=
      (processes_pids_perm w dryRun _).nodup_iff.2 ((findPIDs_nodup w).filter _)
    have hlt : (runOn w dryRun (findPIDsUsingVolume w)).1.Processes.Pairwise
        (fun a b => a.PID < b.PID) := by
      have h1 : ((runOn w dryRun (findPIDsUsingVolume w)).1.Processes.map Process.PID).Sorted
          (· ≤ ·) := List.pairwise_map.2 h
      exact List.pairwise_map.1 (h1.lt_of_le hnd)
    exact List.pairwise_iff_get.1 hlt

/-- C8. The list `findPIDsUsingVolume` returns has no duplicates and holds Go `int`
values; when `lsof` answers, a pid is in it exactly when some line of the output has
at least nine whitespace-separated fields, a ninth field starting with
`/Volumes/ExternalSSD` and a second field that reads as that decimal integer; when
`lsof` fails the list is empty.  Instances: a process with two matching lines is
listed once and one under `/Users/me` is not; the prefix test also takes the sibling
`/Volumes/ExternalSSD2`; a line of eight fields, a pid that is no number, and a path
that only contains the volume path give nothing. -/
theorem C8_scanner_returns_distinct_volume_pids (w : World) :
    (findPIDsUsingVolume w).Nodup ∧
    (∀ p ∈ findPIDsUsingVolume w, isGoInt p = true) ∧
    (∀ out, w.lsof = some out → ∀ p : Int, isGoInt p = true →
      (p ∈ findPIDsUsingVolume w ↔ ∃ line ∈ SplitLines out, lineNames line p = true)) ∧
    (w.lsof = none → findPIDsUsingVolume w = []) ∧
    findPIDsUsingVolume (demoWorld true true) = [300, 100, 400, 200] ∧
    findPIDsUsingVolume
      (lsofWorld (some "node 7 me cwd DIR 1,4 96 2 /Volumes/ExternalSSD2/x\n")) = [7] ∧
    findPIDsUsingVolume
      (lsofWorld (some "node 7 me cwd DIR 1,4 96 /Volumes/ExternalSSD/x\n")) = [] ∧
    findPIDsUsingVolume
      (lsofWorld (some "node x7 me cwd DIR 1,4 96 2 /Volumes/ExternalSSD/x\n")) = [] ∧
    findPIDsUsingVolume
      (lsofWorld (some "node 7 me cwd DIR 1,4 96 2 /Users/me/Volumes/ExternalSSD\n")) = [] ∧
    findPIDsUsingVolume (lsofWorld none) = [] ∧
    lineNames "node 100 me cwd DIR 1,4 96 2 /Volumes/ExternalSSD/app" 100 = true ∧
    lineNames "zsh 500 me cwd DIR 1,4 96 2 /Users/me" 500 = false := by
  have hmem : ∀ out, w.lsof = some out → ∀ p : Int,
      (p ∈ findPIDsUsingVolume w ↔
        ∃ line ∈ SplitLines out, lineNames line p = true ∧ isGoInt p = true) := by
    intro out hout p
    simp only [findPIDsUsingVolume, hout]
    rw [(mapRange_perm _ _).mem_iff, mem_scan]
    simp
  refine ⟨findPIDs_nodup w, ?_, ?_, ?_, by decide, by decide, by decide, by decide,
    by decide, by decide, by decide, by decide⟩
  · intro p hp
    cases hl : w.lsof with
    | none => simp [findPIDsUsingVolume, hl] at hp
    | some out =>
      obtain ⟨_, _, _, hint⟩ := (hmem out hl p).1 hp
      exact hint
  · intro out hout p hint
    rw [hmem out hout p]
    constructor
    · rintro ⟨line, hline, hn, _⟩; exact ⟨line, hline, hn⟩
    · rintro ⟨line, hline, hn⟩; exact ⟨line, hline, hn, hint⟩
  · intro h
    simp [findPIDsUsingVolume, h]

/-- C9. The unmount calls of a run are: none in a dry run; the normal unmount
alone in a real run where it succeeds; the normal unmount then one forced eject in
a real run where it fails.  All of them come after every signal, whatever the
signals returned, and `ForceEjectUsed` implies `UnmountAttempted` and a failed
normal unmount. -/
theorem C9_unmount_call_sequence (w : World) (dryRun : Bool) (pids : List Int) :
    unmountCalls (runOn w dryRun pids).2 =
      (if dryRun then [] else if w.diskutil false then [false] else [false, true]) ∧
    (∃ kills unmounts, (runOn w dryRun pids).2 = kills ++ unmounts ∧
      unmountCalls kills = [] ∧ signalled unmounts = []) ∧
    ((runOn w dryRun pids).1.ForceEjectUsed = true →
      (runOn w dryRun pids).1.UnmountAttempted = true ∧ w.diskutil false = false) := by
  refine ⟨?_, ?_, ?_⟩
  · rw [runOn_events, unmountCalls_append, unmountCalls_killsOf, unmountCalls_unmountsOf]
    rfl
  · exact ⟨_, _, runOn_events w dryRun pids, unmountCalls_killsOf _ _ _,
      signalled_unmountsOf _ _⟩
  · obtain ⟨_, h2, _, h4, _⟩ := runOn_unmount_fields w dryRun pids
    rw [h2, h4]
    cases dryRun <;> cases w.diskutil false <;> simp

/-- C10. Two runs with the same dry-run flag, the same invoking user, the same
`processInfo` answers on the scanned pids, the same outcomes of the unmount calls
they make, and the same set of scanned pids (each list free of duplicates) give
equal results, whatever the order of the pids and whatever the signals returned.
So two runs of the whole handler agree when their scans find the same pids, in
particular on the same `lsof` output under any two map iteration orders; and a
kept pid with a whitelisted command has its "terminate" record even when its
signal failed. -/
theorem C10_result_is_deterministic (w₁ w₂ : World) (dryRun : Bool)
    (huser : currentUser w₁ = currentUser w₂)
    (hnormal : dryRun = false → w₁.diskutil false = w₂.diskutil false)
    (hforced : dryRun = false → w₁.diskutil false = false →
      w₁.diskutil true = w₂.diskutil true) :
    (∀ pids₁ pids₂ : List Int, pids₁.Nodup → pids₂.Nodup →
      (∀ pid, pid ∈ pids₁ ↔ pid ∈ pids₂) →
      (∀ pid ∈ pids₁, processInfo w₁ pid = processInfo w₂ pid) →
      (runOn w₁ dryRun pids₁).1 = (runOn w₂ dryRun pids₂).1) ∧
    ((∀ pid, pid ∈ findPIDsUsingVolume w₁ ↔ pid ∈ findPIDsUsingVolume w₂) →
      (∀ pid ∈ findPIDsUsingVolume w₁, processInfo w₁ pid = processInfo w₂ pid) →
      (run w₁ dryRun).1 = (run w₂ dryRun).1) ∧
    (w₁.lsof = w₂.lsof →
      (∀ pid ∈ findPIDsUsingVolume w₁, processInfo w₁ pid = processInfo w₂ pid) →
      (run w₁ dryRun).1 = (run w₂ dryRun).1) ∧
    (∀ pids : List Int, ∀ pid ∈ pids, (processInfo w₁ pid).2 = currentUser w₁ →
      whitelist.MatchString (processInfo w₁ pid).1 = true → w₁.kill pid = false →
      ∃ p ∈ (runOn w₁ dryRun pids).1.Processes, p.PID = pid ∧ p.Action = "terminate") := by
  have key : ∀ pids₁ pids₂ : List Int, pids₁.Perm pids₂ →
      (∀ pid ∈ pids₁, processInfo w₁ pid = processInfo w₂ pid) →
      (runOn w₁ dryRun pids₁).1 = (runOn w₂ dryRun pids₂).1 := by
    intro pids₁ pids₂ hperm hinfo
    rw [runOn_fst, runOn_fst, processes_eq_of_same_pids w₁ w₂ pids₁ pids₂ huser hinfo hperm]
    cases dryRun with
    | true => rfl
    | false =>
      have hn := hnormal rfl
      have hf := hforced rfl
      cases h1 : w₁.diskutil false
      · rw [h1] at hn hf
        rw [← hn, ← hf rfl]
      · rw [h1] at hn
        rw [← hn]
        rfl
  refine ⟨?_, ?_, ?_, ?_⟩
  · intro pids₁ pids₂ h₁ h₂ hmem hinfo
    exact key _ _ ((List.perm_ext_iff_of_nodup h₁ h₂).2 hmem) hinfo
  · intro hmem hinfo
    exact key _ _
      ((List.perm_ext_iff_of_nodup (findPIDs_nodup w₁) (findPIDs_nodup w₂)).2 hmem) hinfo
  · intro hl hinfo
    exact key _ _ (findPIDs_perm_of_lsof w₁ w₂ hl) hinfo
  · intro pids pid hpid ho hm _
    refine ⟨recordOf w₁ pid, (mem_processes w₁ dryRun pids _).2 ⟨pid, hpid, ho, rfl⟩, rfl, ?_⟩
    simp only [recordOf, hm, if_true]

/-- C10, an instance: two worlds whose raw `whoami`, `lsof` and `ps` outputs differ
but give the same user, pids and process answers; the pids come in different
orders, the signals succeed in one and fail in the other, and the forced eject
that is never called would answer differently.  The event logs differ and the
results are equal. -/
theorem C10_witness :
    (demoWorld true true).whoami ≠ demoWorldB.whoami ∧
    (demoWorld true true).lsof ≠ demoWorldB.lsof ∧
    (demoWorld true true).ps 100 ≠ demoWorldB.ps 100 ∧
    (demoWorld true true).diskutil true ≠ demoWorldB.diskutil true ∧
    findPIDsUsingVolume (demoWorld true true) ≠ findPIDsUsingVolume demoWorldB ∧
    (run (demoWorld true true) false).2 ≠ (run demoWorldB false).2 ∧
    (run (demoWorld true true) false).1 = (run demoWorldB false).1 ∧
    (runOn (demoWorld true true) false [100, 300]).1 =
      (runOn demoWorldB false [300, 100]).1 :=
  have h := C10_result_is_deterministic (demoWorld true true) demoWorldB false (by decide)
    (fun _ => by decide) (fun _ hfail => absurd hfail (by decide))
  have hperm : (findPIDsUsingVolume (demoWorld true true)).Perm
      (findPIDsUsingVolume demoWorldB) := by decide
  ⟨by decide, by decide, by decide, by decide, by decide, by decide,
    h.2.1 (fun _ => hperm.mem_iff) (by decide),
    h.1 [100, 300] [300, 100] (by decide) (by decide)
      (fun _ => (by decide : [(100 : Int), 300].Perm [300, 100]).mem_iff) (by decide)⟩

end GoAutomater
